import Mathlib

/-! WiiChuck (WiiLib.h): decode pipeline of the nunchuk driver.

A shallow embedding of the `WiiChuck` class of
`user_projects/nunchuk/nunchuk_src/WiiLib.h`.

* The object's members become the fields of the structure `WiiChuck`.
* `uint8_t` members hold naturals below 256; `int` members hold integers
  (every `int` computed below stays inside the 16-bit range of the target).
* The two arrays `status[6]` and `angles[3]` are fixed-size records with
  indexed read and write.
* The bytes that the bus hands over after `Wire.requestFrom (0x52, 6)` are
  the argument `rx` of `update`; the `while (Wire.available ())` loop
  consumes them one by one.
* A store `status[cnt]` with `cnt` past the end of the array has no defined
  meaning in C; `update` then yields `none`.
* Transmissions on the bus (`_send_zero`, the handshake in `begin`) and the
  port writes in `begin` touch no member of the object.
-/

namespace WiiLib

/-! ## Constants -/

/-- Value of `#define ZEROX 510`. -/
def ZEROX : Int := 510

/-- Value of `#define ZEROY 490`. -/
def ZEROY : Int := 490

/-- Value of `#define ZEROZ 460`. -/
def ZEROZ : Int := 460

/-- Value of `#define RADIUS 210`. -/
def RADIUS : Int := 210

/-- Value of `#define DEFAULT_ZERO_JOY_X 124`. -/
def DEFAULT_ZERO_JOY_X : Nat := 124

/-- Value of `#define DEFAULT_ZERO_JOY_Y 132`. -/
def DEFAULT_ZERO_JOY_Y : Nat := 132

/-- Modelled from the spec: the Arduino binary literal `B00000011`
(`binary.h` is not part of the source tree); the two-bit mask `0b11`. -/
def B00000011 : Nat := 3

/-- Modelled from the spec: the Arduino binary literal `B00000001`
(`binary.h` is not part of the source tree); the mask of bit 0. -/
def B00000001 : Nat := 1

/-- Modelled from the spec: the Arduino binary literal `B00000010`
(`binary.h` is not part of the source tree); the mask of bit 1. -/
def B00000010 : Nat := 2

/-! ## Arrays -/

/-- The receive buffer `uint8_t status[6]`. -/
structure Status where
  b0 : Nat
  b1 : Nat
  b2 : Nat
  b3 : Nat
  b4 : Nat
  b5 : Nat
  deriving DecidableEq, Repr

/-- Read `status[k]` for an index inside the array. -/
def Status.get (a : Status) (k : Nat) : Nat :=
  match k with
  | 0 => a.b0
  | 1 => a.b1
  | 2 => a.b2
  | 3 => a.b3
  | 4 => a.b4
  | _ => a.b5

/-- Write `status[k] = v` for an index inside the array. -/
def Status.set (a : Status) (k : Nat) (v : Nat) : Status :=
  match k with
  | 0 => { a with b0 := v }
  | 1 => { a with b1 := v }
  | 2 => { a with b2 := v }
  | 3 => { a with b3 := v }
  | 4 => { a with b4 := v }
  | _ => { a with b5 := v }

/-- The accelerometer store `int angles[3]`. -/
structure Angles where
  a0 : Int
  a1 : Int
  a2 : Int
  deriving DecidableEq, Repr

/-- Read `angles[k]` for an index inside the array. -/
def Angles.get (a : Angles) (k : Nat) : Int :=
  match k with
  | 0 => a.a0
  | 1 => a.a1
  | _ => a.a2

/-- Write `angles[k] = v` for an index inside the array. -/
def Angles.set (a : Angles) (k : Nat) (v : Int) : Angles :=
  match k with
  | 0 => { a with a0 := v }
  | 1 => { a with a1 := v }
  | _ => { a with a2 := v }

/-! ## The object -/

/-- Members of `class WiiChuck`, in declaration order. -/
structure WiiChuck where
  cnt : Nat
  status : Status
  averageCounter : Nat
  i : Int
  total : Int
  zeroJoyX : Nat
  zeroJoyY : Nat
  lastJoyX : Int
  lastJoyY : Int
  angles : Angles
  lastZ : Bool
  lastC : Bool
  joyX : Nat
  joyY : Nat
  buttonZ : Bool
  buttonC : Bool
  deriving DecidableEq, Repr

/-- The private `_nunchuk_decode_byte`: the body is `return x;`. -/
def _nunchuk_decode_byte (x : Nat) : Nat := x

/-- The private `_send_zero`: one byte written to the bus, no member of the
object is touched. -/
def _send_zero (s : WiiChuck) : WiiChuck := s

/-- The method `readJoyX`: `(int) joyX - zeroJoyX`. -/
def readJoyX (s : WiiChuck) : Int := (s.joyX : Int) - (s.zeroJoyX : Int)

/-- The method `readJoyY`: `(int) joyY - zeroJoyY`. -/
def readJoyY (s : WiiChuck) : Int := (s.joyY : Int) - (s.zeroJoyY : Int)

/-- The method `calibrateJoy`. -/
def calibrateJoy (s : WiiChuck) : WiiChuck :=
  { s with zeroJoyX := s.joyX, zeroJoyY := s.joyY }

/-- The receive loop of `update`:
`while (Wire.available ()) { status[cnt] = _nunchuk_decode_byte (Wire.read()); cnt++; }`.
Each byte read is converted to `uint8_t`; `cnt` is a `uint8_t` counter.
A store past `status[5]` yields `none`. -/
def update_receive (s : WiiChuck) : List Nat → Option WiiChuck
  | [] => some s
  | r :: rest =>
    if s.cnt < 6 then
      update_receive
        { s with
          status := s.status.set s.cnt (_nunchuk_decode_byte (r % 256)),
          cnt := (s.cnt + 1) % 256 }
        rest
    else none

/-- One pass of the body of the `for (i = 0; i < 3; i++)` loop of `update`:
`angles[i] = (status[i+2] << 2) + ((status[5] & (B00000011 << ((i+1)*2) ) >> ((i+1)*2)));`
In C the shift `>>` binds tighter than `&`, so the right operand of `&` is
`(B00000011 << ((i+1)*2)) >> ((i+1)*2)`. -/
def update_axis (s : WiiChuck) (i : Nat) : WiiChuck :=
  { s with
    i := (i : Int),
    angles := s.angles.set i
      (((s.status.get (i + 2) <<< 2)
        + (s.status.get 5 &&& ((B00000011 <<< ((i + 1) * 2)) >>> ((i + 1) * 2))) : Nat) : Int) }

/-- The body of `if (cnt > 5) { ... }` in `update`. -/
def update_commit (s : WiiChuck) : WiiChuck :=
  let s1 := { s with lastZ := s.buttonZ, lastC := s.buttonC }
  let s2 := { s1 with lastJoyX := readJoyX s1 }
  let s3 := { s2 with lastJoyY := readJoyY s2 }
  let s4 := { s3 with cnt := 0 }
  let s5 := { s4 with joyX := s4.status.get 0 }
  let s6 := { s5 with joyY := s5.status.get 1 }
  let s7 := { (List.foldl update_axis s6 (List.range 3)) with i := 3 }
  let s8 := { s7 with buttonZ := !(decide ((s7.status.get 5 &&& B00000001) ≠ 0)) }
  let s9 := { s8 with buttonC := !(decide (((s8.status.get 5 &&& B00000010) >>> 1) ≠ 0)) }
  _send_zero s9

/-- The method `update`; `rx` holds the bytes available on the bus after
`Wire.requestFrom (0x52, 6)`. -/
def update (s : WiiChuck) (rx : List Nat) : Option WiiChuck :=
  match update_receive s rx with
  | none => none
  | some s1 => if s1.cnt > 5 then some (update_commit s1) else some s1

/-- The method `begin`: `cnt = 0; averageCounter = 0;`, the handshake,
`update();`, the loop clearing `angles`, and the default calibration. -/
def begin (s : WiiChuck) (rx : List Nat) : Option WiiChuck :=
  let s1 := { s with cnt := 0 }
  let s2 := { s1 with averageCounter := 0 }
  match update s2 rx with
  | none => none
  | some s3 =>
    let s4 := { (List.foldl (fun (t : WiiChuck) (i : Nat) =>
                  { t with i := (i : Int), angles := t.angles.set i 0 }) s3 (List.range 3))
                with i := 3 }
    let s5 := { s4 with zeroJoyX := DEFAULT_ZERO_JOY_X }
    some { s5 with zeroJoyY := DEFAULT_ZERO_JOY_Y }

/-- The method `readAccelX`: `(float)angles[0] - ZEROX`; the stored integers
and the constant are exactly representable, so the value is this integer. -/
def readAccelX (s : WiiChuck) : Int := s.angles.get 0 - ZEROX

/-- The method `readAccelY`: `(float)angles[1] - ZEROY`. -/
def readAccelY (s : WiiChuck) : Int := s.angles.get 1 - ZEROY

/-- The method `readAccelZ`: `(float)angles[2] - ZEROZ`. -/
def readAccelZ (s : WiiChuck) : Int := s.angles.get 2 - ZEROZ

/-- The method `zPressed`. -/
def zPressed (s : WiiChuck) : Bool := s.buttonZ && !s.lastZ

/-- The method `cPressed`. -/
def cPressed (s : WiiChuck) : Bool := s.buttonC && !s.lastC

/-- The method `rightJoy`. -/
def rightJoy (s : WiiChuck) (thresh : Int) : Bool :=
  decide (readJoyX s > thresh) && decide (s.lastJoyX ≤ thresh)

/-- The method `leftJoy`; `-thresh` is the mathematical negation, which is
the value of the C expression for every `int` except the least one. -/
def leftJoy (s : WiiChuck) (thresh : Int) : Bool :=
  decide (readJoyX s < -thresh) && decide (s.lastJoyX ≥ -thresh)

/-- Default argument `thresh=60` of `rightJoy` and `leftJoy`. -/
def defaultThresh : Int := 60

/-- An object whose members are all zero or false. -/
def zeroState : WiiChuck :=
  { cnt := 0, status := ⟨0, 0, 0, 0, 0, 0⟩, averageCounter := 0, i := 0, total := 0,
    zeroJoyX := 0, zeroJoyY := 0, lastJoyX := 0, lastJoyY := 0, angles := ⟨0, 0, 0⟩,
    lastZ := false, lastC := false, joyX := 0, joyY := 0, buttonZ := false, buttonC := false }

/-- A complete frame: exactly six values, each a byte. -/
def isFrame (f : List Nat) : Prop := f.length = 6 ∧ ∀ x ∈ f, x < 256

instance (f : List Nat) : Decidable (isFrame f) := by
  unfold isFrame; infer_instance

/-- Byte `k` of a frame. -/
def byte (f : List Nat) (k : Nat) : Nat := f.getD k 0

/-- The poll loop of an application: one `update` call per delivery, in
order; `none` as soon as one call has no defined result. -/
def feed (s : WiiChuck) : List (List Nat) → Option WiiChuck
  | [] => some s
  | rx :: rest =>
    match update s rx with
    | none => none
    | some t => feed t rest

/-- The poll loop with a query `q` evaluated after every `update` call:
the list of the answers, in order. -/
def observe {α : Type} (q : WiiChuck → α) (s : WiiChuck) : List (List Nat) → List α
  | [] => []
  | rx :: rest =>
    match update s rx with
    | none => []
    | some t => q t :: observe q t rest

/-- The Z button is down in frame `f`: bit 0 of byte 5 is 0. -/
def zDown (f : List Nat) : Bool := !(Nat.testBit (byte f 5) 0)

/-- The C button is down in frame `f`: bit 1 of byte 5 is 0. -/
def cDown (f : List Nat) : Bool := !(Nat.testBit (byte f 5) 1)

/-- The accelerometer value of axis `i` as the specification words it:
`(b[2+i] << 2) + ((b[5] & (0b11 << k)) >> k)` with `k = 2*(i+1)`. -/
def spec_accel (f : List Nat) (i : Nat) : Nat :=
  (byte f (2 + i) <<< 2) + ((byte f 5 &&& (3 <<< (2 * (i + 1)))) >>> (2 * (i + 1)))

/-- The members that make up the device state (every member except the
receive buffer, its counter and the scratch members) agree in `s` and `t`. -/
def sameDeviceState (s t : WiiChuck) : Prop :=
  t.joyX = s.joyX ∧ t.joyY = s.joyY ∧ t.angles = s.angles ∧
  t.buttonZ = s.buttonZ ∧ t.buttonC = s.buttonC ∧
  t.lastJoyX = s.lastJoyX ∧ t.lastJoyY = s.lastJoyY ∧
  t.lastZ = s.lastZ ∧ t.lastC = s.lastC ∧
  t.zeroJoyX = s.zeroJoyX ∧ t.zeroJoyY = s.zeroJoyY

instance (s t : WiiChuck) : Decidable (sameDeviceState s t) := by
  unfold sameDeviceState; infer_instance

/-- Operand of `acos` in `readPitch`: `readAccelY()/RADIUS`. Both operands
of the division are exactly representable integers; the quotient is kept
as a rational, which compares with `-1` and `1` as the rounded quotient
does. -/
def readPitch_acosArg (s : WiiChuck) : ℚ := (readAccelY s : ℚ) / (RADIUS : ℚ)

/-- Modelled from the spec: the domain of the inverse cosine of the C math
library (`math.h` is not part of the source tree) is `[-1, 1]`; outside it
`acos` has no numeric value. -/
def acosDefined (r : ℚ) : Prop := -1 ≤ r ∧ r ≤ 1

instance (r : ℚ) : Decidable (acosDefined r) := by
  unfold acosDefined; infer_instance

/-- The method `readPitch`: `(int) (acos(readAccelY()/RADIUS)/ M_PI * 180.0)`.
The parameter `acosDeg r` stands for the value of
`(int) (acos(r)/ M_PI * 180.0)` at an operand `r` inside the domain of
`acos`; outside the domain there is no number to convert and the result is
`none`. -/
def readPitch (acosDeg : ℚ → Int) (s : WiiChuck) : Option Int :=
  if acosDefined (readPitch_acosArg s) then some (acosDeg (readPitch_acosArg s)) else none

/-- The receive buffer `b` is the buffer `a` with the bytes `rx` (each
converted to `uint8_t`) stored at `c`, `c + 1`, ... and every other entry
as in `a`. -/
def storedFrom (a b : Status) (c : Nat) (rx : List Nat) : Prop :=
  ∀ k, k < 6 →
    b.get k = if c ≤ k ∧ k < c + rx.length then rx.getD (k - c) 0 % 256 else a.get k

/-- Every member other than the receive buffer and its counter agrees in
`s` and `t`. -/
def sameOutsideBuffer (s t : WiiChuck) : Prop :=
  sameDeviceState s t ∧ t.averageCounter = s.averageCounter ∧ t.i = s.i ∧ t.total = s.total

/-! ## Evaluating the decoder -/

theorem isFrame_cases {f : List Nat} (h : isFrame f) :
    ∃ b0 b1 b2 b3 b4 b5, f = [b0, b1, b2, b3, b4, b5] ∧
      b0 < 256 ∧ b1 < 256 ∧ b2 < 256 ∧ b3 < 256 ∧ b4 < 256 ∧ b5 < 256 := by
  obtain ⟨hl, hb⟩ := h
  match f, hl with
  | [b0, b1, b2, b3, b4, b5], _ =>
    refine ⟨b0, b1, b2, b3, b4, b5, rfl, ?_, ?_, ?_, ?_, ?_, ?_⟩ <;> apply hb <;> simp

/-- Six bytes received from `cnt = 0` fill the buffer and leave `cnt = 6`. -/
theorem update_receive_six (s : WiiChuck) (h : s.cnt = 0) (b0 b1 b2 b3 b4 b5 : Nat) :
    update_receive s [b0, b1, b2, b3, b4, b5] =
      some { s with
        status := ⟨b0 % 256, b1 % 256, b2 % 256, b3 % 256, b4 % 256, b5 % 256⟩,
        cnt := 6 } := by
  obtain ⟨cnt, st, ac, i, tot, zx, zy, lx, ly, an, lz, lc, jx, jy, bz, bc⟩ := s
  simp only at h
  subst h
  simp [update_receive, Status.set, _nunchuk_decode_byte]

/-- The state committed by `update` for a complete frame received from
`cnt = 0`, member by member. -/
theorem update_six (s : WiiChuck) (h : s.cnt = 0) (b0 b1 b2 b3 b4 b5 : Nat) :
    update s [b0, b1, b2, b3, b4, b5] =
      some { cnt := 0,
             status := ⟨b0 % 256, b1 % 256, b2 % 256, b3 % 256, b4 % 256, b5 % 256⟩,
             averageCounter := s.averageCounter,
             i := 3,
             total := s.total,
             zeroJoyX := s.zeroJoyX,
             zeroJoyY := s.zeroJoyY,
             lastJoyX := (s.joyX : Int) - (s.zeroJoyX : Int),
             lastJoyY := (s.joyY : Int) - (s.zeroJoyY : Int),
             angles := ⟨((((b2 % 256) <<< 2) + ((b5 % 256) &&& 3) : Nat) : Int),
                        ((((b3 % 256) <<< 2) + ((b5 % 256) &&& 3) : Nat) : Int),
                        ((((b4 % 256) <<< 2) + ((b5 % 256) &&& 3) : Nat) : Int)⟩,
             lastZ := s.buttonZ,
             lastC := s.buttonC,
             joyX := b0 % 256,
             joyY := b1 % 256,
             buttonZ := !(decide (((b5 % 256) &&& 1) ≠ 0)),
             buttonC := !(decide ((((b5 % 256) &&& 2) >>> 1) ≠ 0)) } := by
  unfold update
  rw [update_receive_six s h]
  simp [update_commit, update_axis, _send_zero, readJoyX, readJoyY, Status.get, Angles.set,
    List.range, List.range.loop, B00000011, B00000001, B00000010]


set_option maxRecDepth 100000 in
theorem byte_and_one : ∀ x, x < 256 → (!(decide ((x &&& 1) ≠ 0))) = !(Nat.testBit x 0) := by
  decide

set_option maxRecDepth 100000 in
theorem byte_and_two : ∀ x, x < 256 →
    (!(decide (((x &&& 2) >>> 1) ≠ 0))) = !(Nat.testBit x 1) := by
  decide

/-- The state committed by `update` for a complete frame `f` received from
`cnt = 0`, in terms of the bytes of the frame. -/
theorem update_frame (s : WiiChuck) (h : s.cnt = 0) (f : List Nat) (hf : isFrame f) :
    update s f =
      some { cnt := 0,
             status := ⟨byte f 0, byte f 1, byte f 2, byte f 3, byte f 4, byte f 5⟩,
             averageCounter := s.averageCounter,
             i := 3,
             total := s.total,
             zeroJoyX := s.zeroJoyX,
             zeroJoyY := s.zeroJoyY,
             lastJoyX := (s.joyX : Int) - (s.zeroJoyX : Int),
             lastJoyY := (s.joyY : Int) - (s.zeroJoyY : Int),
             angles := ⟨((((byte f 2) <<< 2) + ((byte f 5) &&& 3) : Nat) : Int),
                        ((((byte f 3) <<< 2) + ((byte f 5) &&& 3) : Nat) : Int),
                        ((((byte f 4) <<< 2) + ((byte f 5) &&& 3) : Nat) : Int)⟩,
             lastZ := s.buttonZ,
             lastC := s.buttonC,
             joyX := byte f 0,
             joyY := byte f 1,
             buttonZ := zDown f,
             buttonC := cDown f } := by
  obtain ⟨b0, b1, b2, b3, b4, b5, rfl, h0, h1, h2, h3, h4, h5⟩ := isFrame_cases hf
  rw [update_six s h]
  simp only [byte, zDown, cDown, List.getD_cons_zero, List.getD_cons_succ,
    Nat.mod_eq_of_lt h0, Nat.mod_eq_of_lt h1, Nat.mod_eq_of_lt h2, Nat.mod_eq_of_lt h3,
    Nat.mod_eq_of_lt h4, Nat.mod_eq_of_lt h5, byte_and_one b5 h5, byte_and_two b5 h5]

/-- What one complete frame does to the members read by the queries. -/
theorem update_frame_members (s : WiiChuck) (h : s.cnt = 0) (f : List Nat) (hf : isFrame f) :
    ∃ t, update s f = some t ∧ t.cnt = 0 ∧
      t.buttonZ = zDown f ∧ t.buttonC = cDown f ∧
      t.lastZ = s.buttonZ ∧ t.lastC = s.buttonC ∧
      t.joyX = byte f 0 ∧ t.joyY = byte f 1 ∧
      t.zeroJoyX = s.zeroJoyX ∧ t.zeroJoyY = s.zeroJoyY ∧
      t.lastJoyX = readJoyX s ∧ t.lastJoyY = readJoyY s :=
  ⟨_, update_frame s h f hf, rfl, rfl, rfl, rfl, rfl, rfl, rfl, rfl, rfl, rfl, rfl⟩

/-- Every call of the poll loop returns when it starts from `cnt = 0` and
is fed complete frames: one answer per frame. -/
theorem observe_length {α : Type} (q : WiiChuck → α) (fs : List (List Nat)) :
    ∀ s : WiiChuck, s.cnt = 0 → (∀ f ∈ fs, isFrame f) →
      (observe q s fs).length = fs.length := by
  induction fs with
  | nil => intro s _ _; rfl
  | cons f fs ih =>
    intro s h hfs
    obtain ⟨t, ht, hc, -⟩ := update_frame_members s h f (hfs f (List.mem_cons_self f fs))
    simp only [observe, ht, List.length_cons]
    rw [ih t hc (fun g hg => hfs g (List.mem_cons_of_mem f hg))]

/-- The poll loop fed complete frames from `cnt = 0` ends in a state with
`cnt = 0` and the calibration it started with. -/
theorem feed_frames (fs : List (List Nat)) :
    ∀ s : WiiChuck, s.cnt = 0 → (∀ f ∈ fs, isFrame f) →
      ∃ t, feed s fs = some t ∧ t.cnt = 0 ∧
        t.zeroJoyX = s.zeroJoyX ∧ t.zeroJoyY = s.zeroJoyY := by
  induction fs with
  | nil => intro s h _; exact ⟨s, rfl, h, rfl, rfl⟩
  | cons f fs ih =>
    intro s h hfs
    obtain ⟨t, ht, hc, -, -, -, -, -, -, hzx, hzy, -⟩ :=
      update_frame_members s h f (hfs f (List.mem_cons_self f fs))
    obtain ⟨u, hu, huc, hux, huy⟩ := ih t hc (fun g hg => hfs g (List.mem_cons_of_mem f hg))
    exact ⟨u, by simp only [feed, ht, hu], huc, hux.trans hzx, huy.trans hzy⟩

/-- The state queried after frame `n + 1` of the poll loop: its current
sample comes from frame `n + 1`, its previous sample from frame `n`, and
its calibration is the one the loop started with. -/
theorem observe_getD_succ {α : Type} (q : WiiChuck → α) (d : α) (fs : List (List Nat)) :
    ∀ (s : WiiChuck) (n : Nat), s.cnt = 0 → (∀ f ∈ fs, isFrame f) → n + 1 < fs.length →
      ∃ u, (observe q s fs).getD (n + 1) d = q u ∧
        u.buttonZ = zDown (fs.getD (n + 1) []) ∧ u.lastZ = zDown (fs.getD n []) ∧
        u.buttonC = cDown (fs.getD (n + 1) []) ∧ u.lastC = cDown (fs.getD n []) ∧
        u.zeroJoyX = s.zeroJoyX ∧ u.zeroJoyY = s.zeroJoyY ∧
        u.joyX = byte (fs.getD (n + 1) []) 0 ∧ u.joyY = byte (fs.getD (n + 1) []) 1 ∧
        u.lastJoyX = (byte (fs.getD n []) 0 : Int) - (s.zeroJoyX : Int) ∧
        u.lastJoyY = (byte (fs.getD n []) 1 : Int) - (s.zeroJoyY : Int) := by
  induction fs with
  | nil => intro s n _ _ hn; simp at hn
  | cons f fs ih =>
    intro s n h hfs hn
    obtain ⟨t, ht, hc, hz, hcd, -, -, hx, hy, hzx, hzy, -⟩ :=
      update_frame_members s h f (hfs f (List.mem_cons_self f fs))
    have hfs2 : ∀ g ∈ fs, isFrame g := fun g hg => hfs g (List.mem_cons_of_mem f hg)
    cases n with
    | succ m =>
      have hm : m + 1 < fs.length := by simpa using hn
      obtain ⟨u, hu, h1, h2, h3, h4, h5, h6, h7, h8, h9, h10⟩ := ih t m hc hfs2 hm
      refine ⟨u, ?_, h1, h2, h3, h4, h5.trans hzx, h6.trans hzy, h7, h8, ?_, ?_⟩
      · simp only [observe, ht, List.getD_cons_succ]
        exact hu
      · rw [← hzx]; exact h9
      · rw [← hzy]; exact h10
    | zero =>
      match fs, hfs2, hn with
      | g :: rest, hfs3, _ =>
        obtain ⟨u, hu, -, huz, huc, hulz, hulc, hux, huy, huzx, huzy, hulx, huly⟩ :=
          update_frame_members t hc g (hfs3 g (List.mem_cons_self g rest))
        refine ⟨u, ?_, huz, hulz.trans hz, huc, hulc.trans hcd, huzx.trans hzx,
          huzy.trans hzy, hux, huy, ?_, ?_⟩
        · simp only [observe, ht, hu, List.getD_cons_succ, List.getD_cons_zero]
        · simp only [List.getD_cons_zero, hulx, readJoyX, hx, hzx]
        · simp only [List.getD_cons_zero, huly, readJoyY, hy, hzy]

/-- The state queried after the first frame of the poll loop is the one
`update` returns for that frame. -/
theorem observe_getD_zero {α : Type} (q : WiiChuck → α) (d : α) (s : WiiChuck) (h : s.cnt = 0)
    (f : List Nat) (hf : isFrame f) (fs : List (List Nat)) :
    ∃ u, update s f = some u ∧ (observe q s (f :: fs)).getD 0 d = q u := by
  obtain ⟨t, ht, -⟩ := update_frame_members s h f hf
  exact ⟨t, ht, by simp only [observe, ht, List.getD_cons_zero]⟩

/-- A list of four answers is determined by its four entries. -/
theorem list_four_eq {α : Type} (l : List α) (d a b c e : α) (hl : l.length = 4)
    (h0 : l.getD 0 d = a) (h1 : l.getD 1 d = b) (h2 : l.getD 2 d = c) (h3 : l.getD 3 d = e) :
    l = [a, b, c, e] := by
  match l, hl with
  | [x0, x1, x2, x3], _ =>
    simp only [List.getD_cons_succ, List.getD_cons_zero] at h0 h1 h2 h3
    rw [h0, h1, h2, h3]

/-- The receive loop alone, while the buffer is not full: it returns,
advances `cnt` by the number of bytes and writes only `status` and `cnt`. -/
theorem update_receive_short (rx : List Nat) :
    ∀ s : WiiChuck, s.cnt + rx.length < 6 →
      ∃ t, update_receive s rx = some t ∧ t.cnt = s.cnt + rx.length ∧ sameDeviceState s t := by
  induction rx with
  | nil =>
    intro s _
    exact ⟨s, rfl, rfl, rfl, rfl, rfl, rfl, rfl, rfl, rfl, rfl, rfl, rfl, rfl⟩
  | cons r rest ih =>
    intro s h
    simp only [List.length_cons] at h
    have hc : s.cnt < 6 := by omega
    have hm : (s.cnt + 1) % 256 = s.cnt + 1 := Nat.mod_eq_of_lt (by omega)
    obtain ⟨t, ht, htc, hsame⟩ := ih
      { s with status := s.status.set s.cnt (_nunchuk_decode_byte (r % 256)),
               cnt := (s.cnt + 1) % 256 }
      (by simp only [hm]; omega)
    refine ⟨t, ?_, ?_, hsame⟩
    · simp only [update_receive, hc, if_true]
      exact ht
    · simp only [hm] at htc
      simp only [List.length_cons, htc]
      omega

/-- The poll loop over a concatenation of deliveries. -/
theorem feed_append (fs gs : List (List Nat)) :
    ∀ s t : WiiChuck, feed s fs = some t → feed s (fs ++ gs) = feed t gs := by
  induction fs with
  | nil => intro s t h; cases h; rfl
  | cons f fs ih =>
    intro s t h
    simp only [feed, List.cons_append] at h ⊢
    cases hu : update s f with
    | none => rw [hu] at h; cases h
    | some u =>
      rw [hu] at h
      exact ih u t h

/-- The operand of `acos` is inside `[-1, 1]` exactly when the stored y
value is between 280 and 700. -/
theorem acosDefined_arg_iff (s : WiiChuck) :
    acosDefined (readPitch_acosArg s) ↔ (280 ≤ s.angles.get 1 ∧ s.angles.get 1 ≤ 700) := by
  unfold acosDefined readPitch_acosArg readAccelY ZEROY RADIUS
  have h210 : (0 : ℚ) < ((210 : Int) : ℚ) := by norm_num
  rw [le_div_iff₀ h210, div_le_iff₀ h210]
  constructor
  · rintro ⟨h1, h2⟩
    have h3 : ((-210 : Int) : ℚ) ≤ ((s.angles.get 1 - 490 : Int) : ℚ) := by
      push_cast; push_cast at h1; linarith
    have h4 : ((s.angles.get 1 - 490 : Int) : ℚ) ≤ ((210 : Int) : ℚ) := by
      push_cast; push_cast at h2; linarith
    have h5 := Int.cast_le.mp h3
    have h6 := Int.cast_le.mp h4
    constructor <;> omega
  · rintro ⟨h1, h2⟩
    have h3 : ((280 : Int) : ℚ) ≤ ((s.angles.get 1 : Int) : ℚ) := Int.cast_le.mpr h1
    have h4 : ((s.angles.get 1 : Int) : ℚ) ≤ ((700 : Int) : ℚ) := Int.cast_le.mpr h2
    push_cast at h3 h4 ⊢
    constructor <;> linarith

/-- The receive loop writes only `status` and `cnt`, whenever it returns. -/
theorem update_receive_members (rx : List Nat) :
    ∀ s t : WiiChuck, update_receive s rx = some t →
      sameDeviceState s t ∧ t.averageCounter = s.averageCounter := by
  induction rx with
  | nil =>
    intro s t h
    cases h
    exact ⟨⟨rfl, rfl, rfl, rfl, rfl, rfl, rfl, rfl, rfl, rfl, rfl⟩, rfl⟩
  | cons r rest ih =>
    intro s t h
    by_cases hc : s.cnt < 6
    · simp only [update_receive, hc, if_true] at h
      have hrec := ih _ t h
      exact hrec
    · simp only [update_receive, hc, if_false] at h
      cases h

/-- The receive loop returns whenever the bytes delivered fit in what is
left of the buffer. -/
theorem update_receive_fits (rx : List Nat) :
    ∀ s : WiiChuck, s.cnt + rx.length ≤ 6 →
      ∃ t, update_receive s rx = some t ∧ t.cnt = s.cnt + rx.length := by
  induction rx with
  | nil => intro s _; exact ⟨s, rfl, rfl⟩
  | cons r rest ih =>
    intro s h
    simp only [List.length_cons] at h
    have hc : s.cnt < 6 := by omega
    have hm : (s.cnt + 1) % 256 = s.cnt + 1 := Nat.mod_eq_of_lt (by omega)
    obtain ⟨t, ht, htc⟩ := ih
      { s with status := s.status.set s.cnt (_nunchuk_decode_byte (r % 256)),
               cnt := (s.cnt + 1) % 256 }
      (by simp only [hm]; omega)
    refine ⟨t, ?_, ?_⟩
    · simp only [update_receive, hc, if_true]
      exact ht
    · simp only [hm] at htc
      simp only [List.length_cons, htc]
      omega

/-- The commit block of `update` writes neither calibration member. -/
theorem update_commit_zero (s : WiiChuck) :
    (update_commit s).zeroJoyX = s.zeroJoyX ∧ (update_commit s).zeroJoyY = s.zeroJoyY := by
  simp [update_commit, update_axis, _send_zero, List.range, List.range.loop]

/-- Whenever `update` returns, the calibration members are the ones it was
called with. -/
theorem update_zero (s t : WiiChuck) (rx : List Nat) (h : update s rx = some t) :
    t.zeroJoyX = s.zeroJoyX ∧ t.zeroJoyY = s.zeroJoyY := by
  unfold update at h
  cases hr : update_receive s rx with
  | none => rw [hr] at h; cases h
  | some s1 =>
    rw [hr] at h
    obtain ⟨⟨-, -, -, -, -, -, -, -, -, hx, hy⟩, -⟩ := update_receive_members rx s s1 hr
    by_cases hc : s1.cnt > 5
    · simp only [hc, if_true, Option.some.injEq] at h
      subst h
      exact ⟨(update_commit_zero s1).1.trans hx, (update_commit_zero s1).2.trans hy⟩
    · simp only [hc, if_false, Option.some.injEq] at h
      subst h
      exact ⟨hx, hy⟩

/-- The method `update` returns whenever the bytes delivered fit in what is
left of the buffer. -/
theorem update_fits (s : WiiChuck) (rx : List Nat) (h : s.cnt + rx.length ≤ 6) :
    ∃ t, update s rx = some t := by
  obtain ⟨s1, hs1, -⟩ := update_receive_fits rx s h
  by_cases hc : s1.cnt > 5
  · exact ⟨update_commit s1, by simp only [update, hs1, hc, if_true]⟩
  · exact ⟨s1, by simp only [update, hs1, hc, if_false]⟩

/-- A read that does not complete the buffer leaves the device state as it
was. -/
theorem update_below_six (s : WiiChuck) (rx : List Nat) (h : s.cnt + rx.length < 6) :
    ∃ t, update s rx = some t ∧ sameDeviceState s t := by
  obtain ⟨t, ht, htc, hsame⟩ := update_receive_short rx s h
  have hn : ¬ t.cnt > 5 := by omega
  exact ⟨t, by simp only [update, ht, hn, if_false], hsame⟩

/-- The stored accelerometer value built from two bytes is below 1024. -/
theorem accel_value_le (x y : Nat) (hx : x < 256) : (x <<< 2) + (y &&& 3) ≤ 1023 := by
  have h1 : x <<< 2 = x * 4 := by rw [Nat.shiftLeft_eq]
  have h2 : y &&& 3 ≤ 3 := Nat.and_le_right
  omega

/-- Every byte of a complete frame is below 256. -/
theorem byte_lt (f : List Nat) (hf : isFrame f) (k : Nat) : byte f k < 256 := by
  obtain ⟨b0, b1, b2, b3, b4, b5, rfl, h0, h1, h2, h3, h4, h5⟩ := isFrame_cases hf
  match k with
  | 0 => simpa [byte] using h0
  | 1 => simpa [byte] using h1
  | 2 => simpa [byte] using h2
  | 3 => simpa [byte] using h3
  | 4 => simpa [byte] using h4
  | 5 => simpa [byte] using h5
  | n + 6 => simp [byte]

/-- What `begin` returns, in terms of the result of the `update` call it
makes. -/
theorem begin_of_update (s t : WiiChuck) (rx : List Nat)
    (h : update { s with cnt := 0, averageCounter := 0 } rx = some t) :
    begin s rx = some { t with i := 3, angles := ⟨0, 0, 0⟩,
                               zeroJoyX := DEFAULT_ZERO_JOY_X,
                               zeroJoyY := DEFAULT_ZERO_JOY_Y } := by
  simp [begin, h, List.range, List.range.loop, Angles.set]

/-- Reading back the entry just written. -/
theorem Status.get_set_eq (a : Status) (k v : Nat) (hk : k < 6) : (a.set k v).get k = v := by
  interval_cases k <;> rfl

/-- Writing one entry leaves the others as they were. -/
theorem Status.get_set_ne (a : Status) (k j v : Nat) (hk : k < 6) (hj : j < 6) (h : j ≠ k) :
    (a.set k v).get j = a.get j := by
  interval_cases k <;> interval_cases j <;> first | rfl | exact absurd rfl h

/-- The receive loop, for a delivery that fits in what is left of the
buffer: it returns, `cnt` advances by the number of bytes, the bytes are
stored from `status[cnt]` on, and nothing else is written. -/
theorem update_receive_stores (rx : List Nat) :
    ∀ s : WiiChuck, s.cnt + rx.length ≤ 6 →
      ∃ t, update_receive s rx = some t ∧ t.cnt = s.cnt + rx.length ∧
        sameOutsideBuffer s t ∧ storedFrom s.status t.status s.cnt rx := by
  induction rx with
  | nil =>
    intro s _
    refine ⟨s, rfl, rfl, ⟨⟨rfl, rfl, rfl, rfl, rfl, rfl, rfl, rfl, rfl, rfl, rfl⟩, rfl, rfl, rfl⟩,
      ?_⟩
    intro k _
    have hn : ¬ (s.cnt ≤ k ∧ k < s.cnt + ([] : List Nat).length) := by
      simp only [List.length_nil]; omega
    rw [if_neg hn]
  | cons r rest ih =>
    intro s h
    simp only [List.length_cons] at h
    have hc : s.cnt < 6 := by omega
    have hm : (s.cnt + 1) % 256 = s.cnt + 1 := Nat.mod_eq_of_lt (by omega)
    obtain ⟨t, ht, htc, hsame, hst⟩ := ih
      { s with status := s.status.set s.cnt (_nunchuk_decode_byte (r % 256)),
               cnt := (s.cnt + 1) % 256 }
      (by simp only [hm]; omega)
    simp only [hm] at htc hst
    refine ⟨t, ?_, ?_, hsame, ?_⟩
    · simp only [update_receive, hc, if_true]
      exact ht
    · simp only [List.length_cons, htc]
      omega
    · intro k hk
      rw [hst k hk]
      simp only [List.length_cons, _nunchuk_decode_byte]
      by_cases h1 : k < s.cnt
      · have n1 : ¬ (s.cnt + 1 ≤ k ∧ k < s.cnt + 1 + rest.length) := by omega
        have n2 : ¬ (s.cnt ≤ k ∧ k < s.cnt + (rest.length + 1)) := by omega
        rw [if_neg n1, if_neg n2, Status.get_set_ne _ _ _ _ hc hk (by omega)]
      · by_cases h2 : k = s.cnt
        · subst h2
          have n1 : ¬ (s.cnt + 1 ≤ s.cnt ∧ s.cnt < s.cnt + 1 + rest.length) := by omega
          have p2 : s.cnt ≤ s.cnt ∧ s.cnt < s.cnt + (rest.length + 1) := by omega
          rw [if_neg n1, if_pos p2, Status.get_set_eq _ _ _ hc, Nat.sub_self,
            List.getD_cons_zero]
        · by_cases h3 : k < s.cnt + 1 + rest.length
          · have p1 : s.cnt + 1 ≤ k ∧ k < s.cnt + 1 + rest.length := by omega
            have p2 : s.cnt ≤ k ∧ k < s.cnt + (rest.length + 1) := by omega
            have e : k - s.cnt = (k - (s.cnt + 1)) + 1 := by omega
            rw [if_pos p1, if_pos p2, e, List.getD_cons_succ]
          · have n1 : ¬ (s.cnt + 1 ≤ k ∧ k < s.cnt + 1 + rest.length) := by omega
            have n2 : ¬ (s.cnt ≤ k ∧ k < s.cnt + (rest.length + 1)) := by omega
            rw [if_neg n1, if_neg n2, Status.get_set_ne _ _ _ _ hc hk h2]

/-- The commit block of `update`, member by member. -/
theorem update_commit_eq (s : WiiChuck) :
    update_commit s =
      { cnt := 0,
        status := s.status,
        averageCounter := s.averageCounter,
        i := 3,
        total := s.total,
        zeroJoyX := s.zeroJoyX,
        zeroJoyY := s.zeroJoyY,
        lastJoyX := (s.joyX : Int) - (s.zeroJoyX : Int),
        lastJoyY := (s.joyY : Int) - (s.zeroJoyY : Int),
        angles := ⟨((((s.status.get 2) <<< 2) + ((s.status.get 5) &&& 3) : Nat) : Int),
                   ((((s.status.get 3) <<< 2) + ((s.status.get 5) &&& 3) : Nat) : Int),
                   ((((s.status.get 4) <<< 2) + ((s.status.get 5) &&& 3) : Nat) : Int)⟩,
        lastZ := s.buttonZ,
        lastC := s.buttonC,
        joyX := s.status.get 0,
        joyY := s.status.get 1,
        buttonZ := !(decide (((s.status.get 5) &&& 1) ≠ 0)),
        buttonC := !(decide ((((s.status.get 5) &&& 2) >>> 1) ≠ 0)) } := by
  simp [update_commit, update_axis, _send_zero, readJoyX, readJoyY, Angles.set,
    List.range, List.range.loop, B00000011, B00000001, B00000010]

/-! ## Accelerometer decoding -/

/-- C1 (defect in the code): evaluated on the frame
`[128, 128, 128, 122, 115, 0b10110111]` from `cnt = 0`, `update` stores
`angles = (515, 491, 463)`: the low two bits of every axis are bits 0-1 of
byte 5 (here `0b11`), whereas the specified formula, which takes them from
bits 2-3, 4-5 and 6-7, gives `(513, 491, 462)`. -/
theorem C1_update_takes_low_bits_from_bits_0_1 :
    ∃ t, update zeroState [128, 128, 128, 122, 115, 183] = some t ∧
      t.angles.get 0 = 515 ∧ t.angles.get 1 = 491 ∧ t.angles.get 2 = 463 ∧
      spec_accel [128, 128, 128, 122, 115, 183] 0 = 513 ∧
      spec_accel [128, 128, 128, 122, 115, 183] 1 = 491 ∧
      spec_accel [128, 128, 128, 122, 115, 183] 2 = 462 ∧
      t.angles.get 0 ≠ (spec_accel [128, 128, 128, 122, 115, 183] 0 : Int) ∧
      t.angles.get 2 ≠ (spec_accel [128, 128, 128, 122, 115, 183] 2 : Int) :=
  ⟨_, rfl, by decide, by decide, by decide, by decide, by decide, by decide, by decide,
    by decide⟩

/-! ## Previous-sample fields -/

/-- C2: for every state with `cnt = 0` and every complete frame, `update`
returns a state whose previous-sample members are the values from just
before the call: `lastZ = buttonZ`, `lastC = buttonC`,
`lastJoyX = joyX - zeroJoyX`, `lastJoyY = joyY - zeroJoyY` of the old state,
whatever the frame holds. -/
theorem C2_update_saves_previous_sample (s : WiiChuck) (h : s.cnt = 0) (f : List Nat)
    (hf : isFrame f) :
    ∃ t, update s f = some t ∧
      t.lastZ = s.buttonZ ∧ t.lastC = s.buttonC ∧
      t.lastJoyX = (s.joyX : Int) - (s.zeroJoyX : Int) ∧
      t.lastJoyY = (s.joyY : Int) - (s.zeroJoyY : Int) :=
  ⟨_, update_frame s h f hf, rfl, rfl, rfl, rfl⟩

/-- Instance of C2: Z held, stick at (200, 90) with zero (124, 132), then a
frame with both buttons released and the stick elsewhere. -/
theorem C2_update_saves_previous_sample_witness :
    ∃ t, update { zeroState with buttonZ := true, joyX := 200, joyY := 90,
                                 zeroJoyX := 124, zeroJoyY := 132 }
        [10, 20, 128, 122, 115, 3] = some t ∧
      t.lastZ = true ∧ t.lastC = false ∧
      t.lastJoyX = ((200 : Nat) : Int) - ((124 : Nat) : Int) ∧
      t.lastJoyY = ((90 : Nat) : Int) - ((132 : Nat) : Int) :=
  C2_update_saves_previous_sample
    { zeroState with buttonZ := true, joyX := 200, joyY := 90, zeroJoyX := 124, zeroJoyY := 132 }
    rfl [10, 20, 128, 122, 115, 3] (by decide)

/-! ## Button edges -/

/-- C3: along every sequence of complete frames fed one per `update` call
from `cnt = 0`, every call returns, and `zPressed` queried after frame
`n + 1` is true iff Z is down in frame `n + 1` (bit 0 of byte 5 is 0) and up
in frame `n`; `cPressed` likewise with bit 1. In particular frames encoding
`buttonZ = [false, true, true, false]` give
`zPressed = [false, true, false, false]`. -/
theorem C3_pressed_is_rising_edge (s : WiiChuck) (h : s.cnt = 0) (fs : List (List Nat))
    (hfs : ∀ f ∈ fs, isFrame f) :
    (observe zPressed s fs).length = fs.length ∧
    (observe cPressed s fs).length = fs.length ∧
    (∀ n, n + 1 < fs.length →
      ((observe zPressed s fs).getD (n + 1) false = true ↔
        (zDown (fs.getD (n + 1) []) = true ∧ zDown (fs.getD n []) = false))) ∧
    (∀ n, n + 1 < fs.length →
      ((observe cPressed s fs).getD (n + 1) false = true ↔
        (cDown (fs.getD (n + 1) []) = true ∧ cDown (fs.getD n []) = false))) ∧
    (fs.map zDown = [false, true, true, false] →
      observe zPressed s fs = [false, true, false, false]) := by
  refine ⟨observe_length zPressed fs s h hfs, observe_length cPressed fs s h hfs, ?_, ?_, ?_⟩
  · intro n hn
    obtain ⟨u, hu, hz, hl, -⟩ := observe_getD_succ zPressed false fs s n h hfs hn
    rw [hu, zPressed, hz, hl]
    cases zDown (fs.getD (n + 1) []) <;> cases zDown (fs.getD n []) <;> simp
  · intro n hn
    obtain ⟨u, hu, -, -, hz, hl, -⟩ := observe_getD_succ cPressed false fs s n h hfs hn
    rw [hu, cPressed, hz, hl]
    cases cDown (fs.getD (n + 1) []) <;> cases cDown (fs.getD n []) <;> simp
  · intro hz
    have hlen : fs.length = 4 := by simpa using congrArg List.length hz
    match fs, hlen, hfs, hz with
    | [f1, f2, f3, f4], _, hfs, hz =>
      simp only [List.map_cons, List.map_nil, List.cons.injEq, and_true] at hz
      obtain ⟨z1, z2, z3, z4⟩ := hz
      obtain ⟨u0, hu0, e0⟩ := observe_getD_zero zPressed false s h f1 (hfs f1 (by simp)) [f2, f3, f4]
      obtain ⟨t0, ht0, -, hb0, -⟩ := update_frame_members s h f1 (hfs f1 (by simp))
      obtain ⟨u1, e1, hc1, hl1, -⟩ :=
        observe_getD_succ zPressed false [f1, f2, f3, f4] s 0 h hfs (by simp)
      obtain ⟨u2, e2, hc2, hl2, -⟩ :=
        observe_getD_succ zPressed false [f1, f2, f3, f4] s 1 h hfs (by simp)
      obtain ⟨u3, e3, hc3, hl3, -⟩ :=
        observe_getD_succ zPressed false [f1, f2, f3, f4] s 2 h hfs (by simp)
      rw [hu0] at ht0
      cases ht0
      simp only [List.getD_cons_succ, List.getD_cons_zero, z1, z2, z3, z4] at hc1 hl1 hc2 hl2 hc3 hl3
      apply list_four_eq _ false _ _ _ _ (observe_length zPressed _ s h hfs)
      · rw [e0, zPressed, hb0, z1]; rfl
      · rw [e1, zPressed, hc1, hl1]; rfl
      · rw [e2, zPressed, hc2, hl2]; rfl
      · rw [e3, zPressed, hc3, hl3]; rfl

/-- Instance of C3 on four frames whose byte 5 is `1, 0, 0, 1` (Z up, down,
down, up). -/
theorem C3_pressed_is_rising_edge_witness :
    observe zPressed zeroState
      [[128, 128, 128, 122, 115, 1], [128, 128, 128, 122, 115, 0],
       [128, 128, 128, 122, 115, 0], [128, 128, 128, 122, 115, 1]]
      = [false, true, false, false] :=
  (C3_pressed_is_rising_edge zeroState rfl
      [[128, 128, 128, 122, 115, 1], [128, 128, 128, 122, 115, 0],
       [128, 128, 128, 122, 115, 0], [128, 128, 128, 122, 115, 1]]
      (by decide)).2.2.2.2 (by decide)

/-! ## Joystick gestures -/

/-- C4: with the calibration zero `z = zeroJoyX` left alone, for every
threshold `t` and every sequence of complete frames fed one per `update`
call from `cnt = 0`, every call returns and `rightJoy t` queried after frame
`n + 1` is true iff `x_cur - z > t` and `x_prev - z ≤ t`, where `x_cur` and
`x_prev` are byte 0 of frames `n + 1` and `n`. In particular with `t = 60`
and `z = 128` the raw sequence `[128, 190, 200, 128]` gives
`rightJoy = [false, true, false, false]`. -/
theorem C4_rightJoy_is_threshold_crossing (s : WiiChuck) (h : s.cnt = 0) (t : Int)
    (fs : List (List Nat)) (hfs : ∀ f ∈ fs, isFrame f) :
    (observe (fun u => rightJoy u t) s fs).length = fs.length ∧
    (∀ n, n + 1 < fs.length →
      ((observe (fun u => rightJoy u t) s fs).getD (n + 1) false = true ↔
        ((byte (fs.getD (n + 1) []) 0 : Int) - (s.zeroJoyX : Int) > t ∧
          (byte (fs.getD n []) 0 : Int) - (s.zeroJoyX : Int) ≤ t))) ∧
    (s.zeroJoyX = 128 → fs.map (fun f => byte f 0) = [128, 190, 200, 128] →
      observe (fun u => rightJoy u defaultThresh) s fs = [false, true, false, false]) := by
  refine ⟨observe_length _ fs s h hfs, ?_, ?_⟩
  · intro n hn
    obtain ⟨u, hu, -, -, -, -, hzx, -, hx, -, hlx, -⟩ :=
      observe_getD_succ (fun u => rightJoy u t) false fs s n h hfs hn
    rw [hu]
    simp only [rightJoy, readJoyX, hzx, hx, hlx, Bool.and_eq_true, decide_eq_true_eq]
  · intro hz hx
    have hlen : fs.length = 4 := by simpa using congrArg List.length hx
    match fs, hlen, hfs, hx with
    | [f1, f2, f3, f4], _, hfs, hx =>
      simp only [List.map_cons, List.map_nil, List.cons.injEq, and_true] at hx
      obtain ⟨x1, x2, x3, x4⟩ := hx
      obtain ⟨u0, hu0, e0⟩ := observe_getD_zero (fun u => rightJoy u defaultThresh) false s h f1
        (hfs f1 (by simp)) [f2, f3, f4]
      obtain ⟨t0, ht0, -, -, -, -, -, hj0, -, hz0, -⟩ :=
        update_frame_members s h f1 (hfs f1 (by simp))
      obtain ⟨u1, e1, -, -, -, -, hz1, -, hc1, -, hl1, -⟩ :=
        observe_getD_succ (fun u => rightJoy u defaultThresh) false [f1, f2, f3, f4] s 0 h hfs
          (by simp)
      obtain ⟨u2, e2, -, -, -, -, hz2, -, hc2, -, hl2, -⟩ :=
        observe_getD_succ (fun u => rightJoy u defaultThresh) false [f1, f2, f3, f4] s 1 h hfs
          (by simp)
      obtain ⟨u3, e3, -, -, -, -, hz3, -, hc3, -, hl3, -⟩ :=
        observe_getD_succ (fun u => rightJoy u defaultThresh) false [f1, f2, f3, f4] s 2 h hfs
          (by simp)
      rw [hu0] at ht0
      cases ht0
      simp only [List.getD_cons_succ, List.getD_cons_zero, x1, x2, x3, x4, hz]
        at hc1 hl1 hc2 hl2 hc3 hl3 hz1 hz2 hz3
      rw [x1] at hj0
      rw [hz] at hz0
      apply list_four_eq _ false _ _ _ _
        (observe_length (fun u => rightJoy u defaultThresh) _ s h hfs)
      · rw [e0]; simp [rightJoy, readJoyX, hj0, hz0, defaultThresh]
      · rw [e1]; simp only [rightJoy, readJoyX, hc1, hz1, hl1, defaultThresh]; decide
      · rw [e2]; simp only [rightJoy, readJoyX, hc2, hz2, hl2, defaultThresh]; decide
      · rw [e3]; simp only [rightJoy, readJoyX, hc3, hz3, hl3, defaultThresh]; decide

/-- Instance of C4: zero 128, threshold 60, raw X bytes 128, 190, 200, 128. -/
theorem C4_rightJoy_is_threshold_crossing_witness :
    observe (fun u => rightJoy u defaultThresh) { zeroState with zeroJoyX := 128 }
      [[128, 128, 128, 122, 115, 3], [190, 128, 128, 122, 115, 3],
       [200, 128, 128, 122, 115, 3], [128, 128, 128, 122, 115, 3]]
      = [false, true, false, false] :=
  (C4_rightJoy_is_threshold_crossing { zeroState with zeroJoyX := 128 } rfl 60
      [[128, 128, 128, 122, 115, 3], [190, 128, 128, 122, 115, 3],
       [200, 128, 128, 122, 115, 3], [128, 128, 128, 122, 115, 3]]
      (by decide)).2.2 rfl (by decide)

/-! ## Short reads -/

/-- C5, as stated, fails: after a first read of three bytes, a second read
that delivers three bytes (fewer than six) completes the buffer and commits
a frame; `joyX` changes from 0 to 200. -/
theorem C5_short_read_can_commit :
    ∃ s1 s2, update zeroState [200, 10, 20] = some s1 ∧
      update s1 [30, 40, 7] = some s2 ∧ [30, 40, 7].length < 6 ∧
      s1.joyX = 0 ∧ s2.joyX = 200 ∧ ¬ sameDeviceState s1 s2 :=
  ⟨_, _, rfl, rfl, by decide, rfl, rfl, by decide⟩

/-- C5 (amended): `update` gates the commit on the accumulated count, not
on the bytes of the current call. For every state and every `update` call
whose delivery does not complete the receive buffer (`cnt` plus the number
of bytes delivered is below 6; in particular every read shorter than six
bytes from `cnt = 0`), the call returns, all device-state members and
every other member outside the receive buffer are unchanged, `cnt` advances
by the number of bytes and the bytes are stored from `status[cnt]` on. For
every state and every call whose delivery brings the count to exactly 6,
the call commits the buffer as a frame, bytes of earlier short reads
included: the `last*` members take the values from before the call, the
calibration is kept, `joyX`, `joyY`, the accelerometer values and the
buttons are decoded from the buffer, and `cnt` returns to 0. -/
theorem C5_update_commits_exactly_at_six (s : WiiChuck) (rx : List Nat) :
    (s.cnt + rx.length < 6 →
      ∃ t, update s rx = some t ∧ sameDeviceState s t ∧ sameOutsideBuffer s t ∧
        t.cnt = s.cnt + rx.length ∧ storedFrom s.status t.status s.cnt rx) ∧
    (s.cnt + rx.length = 6 →
      ∃ s1 t, update_receive s rx = some s1 ∧ s1.cnt = 6 ∧ sameOutsideBuffer s s1 ∧
        storedFrom s.status s1.status s.cnt rx ∧
        update s rx = some t ∧ t = update_commit s1 ∧ t.cnt = 0 ∧ t.status = s1.status ∧
        t.lastZ = s.buttonZ ∧ t.lastC = s.buttonC ∧
        t.lastJoyX = readJoyX s ∧ t.lastJoyY = readJoyY s ∧
        t.zeroJoyX = s.zeroJoyX ∧ t.zeroJoyY = s.zeroJoyY ∧
        t.averageCounter = s.averageCounter ∧ t.total = s.total ∧
        t.joyX = t.status.get 0 ∧ t.joyY = t.status.get 1 ∧
        t.angles.get 0 = (((t.status.get 2 <<< 2) + (t.status.get 5 &&& 3) : Nat) : Int) ∧
        t.angles.get 1 = (((t.status.get 3 <<< 2) + (t.status.get 5 &&& 3) : Nat) : Int) ∧
        t.angles.get 2 = (((t.status.get 4 <<< 2) + (t.status.get 5 &&& 3) : Nat) : Int) ∧
        (t.buttonZ = true ↔ t.status.get 5 &&& 1 = 0) ∧
        (t.buttonC = true ↔ (t.status.get 5 &&& 2) >>> 1 = 0)) := by
  constructor
  · intro h
    obtain ⟨t, ht, htc, hsame, hst⟩ := update_receive_stores rx s (by omega)
    have hn : ¬ t.cnt > 5 := by omega
    exact ⟨t, by simp only [update, ht, hn, if_false], hsame.1, hsame, htc, hst⟩
  · intro h
    obtain ⟨s1, hs1, hc1, hsame, hst⟩ := update_receive_stores rx s (by omega)
    have hc6 : s1.cnt = 6 := by omega
    have hp : s1.cnt > 5 := by omega
    have hkeep := hsame
    obtain ⟨⟨hjx, hjy, -, hbz, hbc, -, -, -, -, hzx, hzy⟩, hav, -, htot⟩ := hsame
    refine ⟨s1, update_commit s1, hs1, hc6, hkeep, hst,
      by simp only [update, hs1, hp, if_true], rfl, ?_⟩
    rw [update_commit_eq s1]
    refine ⟨rfl, rfl, hbz, hbc, ?_, ?_, hzx, hzy, hav, htot, rfl, rfl, rfl, rfl, rfl, ?_, ?_⟩
    · simp only [readJoyX, hjx, hzx]
    · simp only [readJoyY, hjy, hzy]
    · simp
    · simp

/-- Instance of C5 (amended): four bytes delivered at `cnt = 0` leave the
device state alone; three bytes delivered at `cnt = 3`, on top of the
buffered bytes 200, 10, 20, commit a frame with `joyX = 200`. -/
theorem C5_update_commits_exactly_at_six_witness :
    (∃ t, update { zeroState with joyX := 140, buttonC := true } [1, 2, 3, 4] = some t ∧
      sameDeviceState { zeroState with joyX := 140, buttonC := true } t ∧ t.cnt = 4) ∧
    (∃ t, update { zeroState with cnt := 3, status := ⟨200, 10, 20, 0, 0, 0⟩ } [30, 40, 7]
        = some t ∧ t.cnt = 0 ∧ t.joyX = 200) := by
  constructor
  · obtain ⟨t, h1, h2, -, h3, -⟩ :=
      (C5_update_commits_exactly_at_six { zeroState with joyX := 140, buttonC := true }
        [1, 2, 3, 4]).1 (by decide)
    exact ⟨t, h1, h2, h3⟩
  · obtain ⟨s1, t, -, -, -, hst, h1, -, h2, hs, -, -, -, -, -, -, -, -, h3, -⟩ :=
      (C5_update_commits_exactly_at_six
        { zeroState with cnt := 3, status := ⟨200, 10, 20, 0, 0, 0⟩ } [30, 40, 7]).2 (by decide)
    have h0 := hst 0 (by decide)
    rw [if_neg (by decide)] at h0
    exact ⟨t, h1, h2, by rw [h3, hs, h0]; rfl⟩

/-! ## Calibration -/

/-- C6: for every state, `calibrateJoy` sets `zeroJoyX = joyX` and
`zeroJoyY = joyY`, so `readJoyX` and `readJoyY` are 0 right afterwards; and
after any later complete frames (fed one per `update` call from `cnt = 0`)
the last of which has byte 0 equal to the calibrated `joyX`, `readJoyX` is
0 again. -/
theorem C6_calibrateJoy_zeroes_offsets (s : WiiChuck) :
    (calibrateJoy s).zeroJoyX = s.joyX ∧ (calibrateJoy s).zeroJoyY = s.joyY ∧
    readJoyX (calibrateJoy s) = 0 ∧ readJoyY (calibrateJoy s) = 0 ∧
    (s.cnt = 0 → ∀ (fs : List (List Nat)) (f : List Nat),
      (∀ g ∈ fs, isFrame g) → isFrame f → byte f 0 = s.joyX →
      ∃ t, feed (calibrateJoy s) (fs ++ [f]) = some t ∧ readJoyX t = 0) := by
  refine ⟨rfl, rfl, by simp [calibrateJoy, readJoyX], by simp [calibrateJoy, readJoyY], ?_⟩
  intro h fs f hfs hf hx
  obtain ⟨u, hu, huc, hux, -⟩ := feed_frames fs (calibrateJoy s) h hfs
  obtain ⟨t, ht, -, -, -, -, -, hj, -, hz, -⟩ := update_frame_members u huc f hf
  refine ⟨t, ?_, ?_⟩
  · rw [feed_append fs [f] (calibrateJoy s) u hu]
    simp only [feed, ht]
  · simp only [readJoyX, hj, hz, hux, hx, calibrateJoy, sub_self]

/-- Instance of C6: calibrate at `joyX = 140`, move the stick, then a raw
140 gives offset 0. -/
theorem C6_calibrateJoy_zeroes_offsets_witness :
    ∃ t, feed (calibrateJoy { zeroState with joyX := 140, joyY := 120 })
        ([[200, 128, 128, 122, 115, 3]] ++ [[140, 128, 128, 122, 115, 3]]) = some t ∧
      readJoyX t = 0 :=
  (C6_calibrateJoy_zeroes_offsets { zeroState with joyX := 140, joyY := 120 }).2.2.2.2 rfl
    [[200, 128, 128, 122, 115, 3]] [140, 128, 128, 122, 115, 3] (by decide) (by decide) rfl

/-! ## Button levels -/

/-- C7: for every complete frame decoded by `update` (from `cnt = 0`),
`buttonZ` is true iff bit 0 of byte 5 is 0 and `buttonC` is true iff bit 1
of byte 5 is 0. -/
theorem C7_buttons_are_inverted_wire_bits (s : WiiChuck) (h : s.cnt = 0) (f : List Nat)
    (hf : isFrame f) :
    ∃ t, update s f = some t ∧
      (t.buttonZ = true ↔ Nat.testBit (byte f 5) 0 = false) ∧
      (t.buttonC = true ↔ Nat.testBit (byte f 5) 1 = false) := by
  obtain ⟨t, ht, -, hz, hc, -⟩ := update_frame_members s h f hf
  refine ⟨t, ht, ?_, ?_⟩
  · rw [hz, zDown]; cases Nat.testBit (byte f 5) 0 <;> simp
  · rw [hc, cDown]; cases Nat.testBit (byte f 5) 1 <;> simp

/-- Instance of C7: byte 5 is `0b11111110`, Z down and C up, whatever the
six high bits are. -/
theorem C7_buttons_are_inverted_wire_bits_witness :
    ∃ t, update zeroState [128, 128, 128, 122, 115, 254] = some t ∧
      (t.buttonZ = true ↔ Nat.testBit (byte [128, 128, 128, 122, 115, 254] 5) 0 = false) ∧
      (t.buttonC = true ↔ Nat.testBit (byte [128, 128, 128, 122, 115, 254] 5) 1 = false) :=
  C7_buttons_are_inverted_wire_bits zeroState rfl [128, 128, 128, 122, 115, 254] (by decide)

/-! ## Pitch -/

/-- C10, as stated, fails: the frame `[128, 128, 128, 255, 115, 3]` decodes
to `angles[1] = 1023`, so `readAccelY = 533 > RADIUS`; the operand handed to
`acos` is `533/210`, outside `[-1, 1]` and not clamped, and `readPitch` has
no defined result there (in particular it is not 0). -/
theorem C10_readPitch_operand_out_of_domain :
    ∃ t, update zeroState [128, 128, 128, 255, 115, 3] = some t ∧
      t.angles.get 1 = 1023 ∧ readAccelY t = 533 ∧
      readPitch_acosArg t = 533 / 210 ∧ ¬ acosDefined (readPitch_acosArg t) ∧
      ∀ acosDeg : ℚ → Int, readPitch acosDeg t = none := by
  have hu := update_frame zeroState rfl [128, 128, 128, 255, 115, 3] (by decide)
  refine ⟨_, hu, by decide, by decide, ?_, ?_, ?_⟩
  · rw [readPitch_acosArg]
    have hy : ∀ u : WiiChuck, readAccelY u = 533 → ((readAccelY u : ℚ) / (RADIUS : ℚ)) = 533 / 210 := by
      intro u h
      rw [h]
      norm_num [RADIUS]
    exact hy _ (by decide)
  · rw [acosDefined_arg_iff]; decide
  · intro acosDeg
    exact if_neg (by rw [acosDefined_arg_iff]; decide)

/-- C10 (amended): `readPitch` hands `readAccelY()/RADIUS = (y - 490)/210`
to the inverse cosine without clamping it. For every stored y value the
operand is inside `[-1, 1]`, and the result is a defined integer, exactly
when `280 ≤ y ≤ 700`; whenever `y_offset > RADIUS` the operand exceeds 1,
whenever `y_offset < -RADIUS` it is below -1, and in both cases `readPitch`
has no defined result. -/
theorem C10_readPitch_defined_iff_in_range (acosDeg : ℚ → Int) (s : WiiChuck) :
    readPitch_acosArg s = ((s.angles.get 1 - 490 : Int) : ℚ) / 210 ∧
    (acosDefined (readPitch_acosArg s) ↔ (280 ≤ s.angles.get 1 ∧ s.angles.get 1 ≤ 700)) ∧
    ((∃ v, readPitch acosDeg s = some v) ↔ (280 ≤ s.angles.get 1 ∧ s.angles.get 1 ≤ 700)) ∧
    (readAccelY s > RADIUS → 1 < readPitch_acosArg s ∧ readPitch acosDeg s = none) ∧
    (readAccelY s < -RADIUS → readPitch_acosArg s < -1 ∧ readPitch acosDeg s = none) := by
  have harg : readPitch_acosArg s = ((s.angles.get 1 - 490 : Int) : ℚ) / 210 := by
    simp [readPitch_acosArg, readAccelY, ZEROY, RADIUS]
  have h210 : (0 : ℚ) < 210 := by norm_num
  refine ⟨harg, acosDefined_arg_iff s, ?_, ?_, ?_⟩
  · rw [← acosDefined_arg_iff s]
    unfold readPitch
    by_cases hd : acosDefined (readPitch_acosArg s)
    · simp [hd]
    · simp [hd]
  · intro hy
    have hy2 : 700 < s.angles.get 1 := by
      simp only [readAccelY, ZEROY, RADIUS] at hy; omega
    have hnd : ¬ acosDefined (readPitch_acosArg s) := by
      rw [acosDefined_arg_iff]; omega
    refine ⟨?_, if_neg hnd⟩
    rw [harg, lt_div_iff₀ h210]
    have : ((210 : Int) : ℚ) < ((s.angles.get 1 - 490 : Int) : ℚ) := Int.cast_lt.mpr (by omega)
    push_cast at this ⊢
    linarith
  · intro hy
    have hy2 : s.angles.get 1 < 280 := by
      simp only [readAccelY, ZEROY, RADIUS] at hy; omega
    have hnd : ¬ acosDefined (readPitch_acosArg s) := by
      rw [acosDefined_arg_iff]; omega
    refine ⟨?_, if_neg hnd⟩
    rw [harg, div_lt_iff₀ h210]
    have : ((s.angles.get 1 - 490 : Int) : ℚ) < ((-210 : Int) : ℚ) := Int.cast_lt.mpr (by omega)
    push_cast at this ⊢
    linarith

/-- Instance of C10 (amended): the stored y value 701 has offset 211, just
above `RADIUS`. -/
theorem C10_readPitch_defined_iff_in_range_witness :
    1 < readPitch_acosArg { zeroState with angles := ⟨510, 701, 460⟩ } ∧
      readPitch (fun _ => 0) { zeroState with angles := ⟨510, 701, 460⟩ } = none :=
  (C10_readPitch_defined_iff_in_range (fun _ => 0)
    { zeroState with angles := ⟨510, 701, 460⟩ }).2.2.2.1 (by decide)

/-! ## Determinism -/

/-- C11: decoding is history-free: for any two prior states with `cnt = 0`
and the same complete frame, both `update` calls return, and `joyX`,
`joyY`, the three accelerometer values, `buttonZ` and `buttonC` are the
same in both results. -/
theorem C11_decoding_is_history_free (s1 s2 : WiiChuck) (h1 : s1.cnt = 0) (h2 : s2.cnt = 0)
    (f : List Nat) (hf : isFrame f) :
    ∃ t1 t2, update s1 f = some t1 ∧ update s2 f = some t2 ∧
      t1.joyX = t2.joyX ∧ t1.joyY = t2.joyY ∧ t1.angles = t2.angles ∧
      t1.buttonZ = t2.buttonZ ∧ t1.buttonC = t2.buttonC :=
  ⟨_, _, update_frame s1 h1 f hf, update_frame s2 h2 f hf, rfl, rfl, rfl, rfl, rfl⟩

/-- Instance of C11: the same frame decoded after two different histories. -/
theorem C11_decoding_is_history_free_witness :
    ∃ t1 t2, update zeroState [10, 20, 128, 122, 115, 18] = some t1 ∧
      update { zeroState with joyX := 77, buttonZ := true, angles := ⟨1, 2, 3⟩, zeroJoyX := 9 }
        [10, 20, 128, 122, 115, 18] = some t2 ∧
      t1.joyX = t2.joyX ∧ t1.joyY = t2.joyY ∧ t1.angles = t2.angles ∧
      t1.buttonZ = t2.buttonZ ∧ t1.buttonC = t2.buttonC :=
  C11_decoding_is_history_free zeroState
    { zeroState with joyX := 77, buttonZ := true, angles := ⟨1, 2, 3⟩, zeroJoyX := 9 }
    rfl rfl [10, 20, 128, 122, 115, 18] (by decide)

/-! ## Left gesture -/

/-- C12: with the calibration zero `z = zeroJoyX` left alone, for every
threshold `t` (an `int` whose negation is representable, so that `-t` below
is the value of the C expression) and every sequence of complete frames fed
one per `update` call from `cnt = 0`, every call returns and `leftJoy t`
queried after frame `n + 1` is true iff `x_cur - z < -t` and
`x_prev - z ≥ -t`, where `x_cur` and `x_prev` are byte 0 of frames `n + 1`
and `n`; equivalently `z - x_cur > t` and `z - x_prev ≤ t`, the condition
of `rightJoy` mirrored about `z`. -/
theorem C12_leftJoy_is_mirrored_crossing (s : WiiChuck) (h : s.cnt = 0) (t : Int)
    (fs : List (List Nat)) (hfs : ∀ f ∈ fs, isFrame f) :
    (observe (fun u => leftJoy u t) s fs).length = fs.length ∧
    (∀ n, n + 1 < fs.length →
      ((observe (fun u => leftJoy u t) s fs).getD (n + 1) false = true ↔
        ((byte (fs.getD (n + 1) []) 0 : Int) - (s.zeroJoyX : Int) < -t ∧
          (byte (fs.getD n []) 0 : Int) - (s.zeroJoyX : Int) ≥ -t))) ∧
    (∀ n, n + 1 < fs.length →
      ((observe (fun u => leftJoy u t) s fs).getD (n + 1) false = true ↔
        ((s.zeroJoyX : Int) - (byte (fs.getD (n + 1) []) 0 : Int) > t ∧
          (s.zeroJoyX : Int) - (byte (fs.getD n []) 0 : Int) ≤ t))) := by
  have key : ∀ n, n + 1 < fs.length →
      ((observe (fun u => leftJoy u t) s fs).getD (n + 1) false = true ↔
        ((byte (fs.getD (n + 1) []) 0 : Int) - (s.zeroJoyX : Int) < -t ∧
          (byte (fs.getD n []) 0 : Int) - (s.zeroJoyX : Int) ≥ -t)) := by
    intro n hn
    obtain ⟨u, hu, -, -, -, -, hzx, -, hx, -, hlx, -⟩ :=
      observe_getD_succ (fun u => leftJoy u t) false fs s n h hfs hn
    rw [hu]
    simp only [leftJoy, readJoyX, hzx, hx, hlx, Bool.and_eq_true, decide_eq_true_eq]
  refine ⟨observe_length _ fs s h hfs, key, ?_⟩
  intro n hn
  rw [key n hn]
  constructor
  · rintro ⟨a, b⟩; constructor <;> omega
  · rintro ⟨a, b⟩; constructor <;> omega

/-- Instance of C12: zero 128, threshold 60, raw X bytes 128, 60, 50, 128:
four answers, and the one after the second frame is true. -/
theorem C12_leftJoy_is_mirrored_crossing_witness :
    (observe (fun u => leftJoy u 60) { zeroState with zeroJoyX := 128 }
      [[128, 128, 128, 122, 115, 3], [60, 128, 128, 122, 115, 3],
       [50, 128, 128, 122, 115, 3], [128, 128, 128, 122, 115, 3]]).length = 4 ∧
    (observe (fun u => leftJoy u 60) { zeroState with zeroJoyX := 128 }
      [[128, 128, 128, 122, 115, 3], [60, 128, 128, 122, 115, 3],
       [50, 128, 128, 122, 115, 3], [128, 128, 128, 122, 115, 3]]).getD (0 + 1) false = true :=
  ⟨(C12_leftJoy_is_mirrored_crossing { zeroState with zeroJoyX := 128 } rfl 60
      [[128, 128, 128, 122, 115, 3], [60, 128, 128, 122, 115, 3],
       [50, 128, 128, 122, 115, 3], [128, 128, 128, 122, 115, 3]]
      (by decide)).1,
   ((C12_leftJoy_is_mirrored_crossing { zeroState with zeroJoyX := 128 } rfl 60
      [[128, 128, 128, 122, 115, 3], [60, 128, 128, 122, 115, 3],
       [50, 128, 128, 122, 115, 3], [128, 128, 128, 122, 115, 3]]
      (by decide)).2.1 0 (by decide)).mpr (by decide)⟩

/-! ## Joystick passthrough -/

/-- C13: for every complete frame decoded by `update` (from `cnt = 0`),
`joyX` is byte 0 and `joyY` is byte 1 of the frame, and
`_nunchuk_decode_byte` is the identity on all 256 byte values. -/
theorem C13_joystick_is_passthrough (s : WiiChuck) (h : s.cnt = 0) (f : List Nat)
    (hf : isFrame f) :
    (∃ t, update s f = some t ∧ t.joyX = byte f 0 ∧ t.joyY = byte f 1) ∧
    (∀ x, x < 256 → _nunchuk_decode_byte x = x) :=
  ⟨⟨_, update_frame s h f hf, rfl, rfl⟩, fun _ _ => rfl⟩

/-- Instance of C13: the frame `[200, 31, 128, 122, 115, 3]`. -/
theorem C13_joystick_is_passthrough_witness :
    (∃ t, update zeroState [200, 31, 128, 122, 115, 3] = some t ∧
      t.joyX = byte [200, 31, 128, 122, 115, 3] 0 ∧
      t.joyY = byte [200, 31, 128, 122, 115, 3] 1) ∧
    (∀ x, x < 256 → _nunchuk_decode_byte x = x) :=
  C13_joystick_is_passthrough zeroState rfl [200, 31, 128, 122, 115, 3] (by decide)

/-! ## Joystick offsets -/

/-- C14: when `joyX`, `joyY`, `zeroJoyX`, `zeroJoyY` hold 8-bit values,
`readJoyX` is the signed difference `joyX - zeroJoyX` and `readJoyY` is
`joyY - zeroJoyY`, each in `[-255, 255]`; the difference is negative when
the reading is below the zero (no wrap to a value in `0..255`), and it is
taken from the calibration member as it is at the query: for every value
`z` written to `zeroJoyX` (`zeroJoyY`) the next query returns `joyX - z`
(`joyY - z`). -/
theorem C14_readJoy_is_signed_difference (s : WiiChuck)
    (hx : s.joyX < 256) (hy : s.joyY < 256) (hzx : s.zeroJoyX < 256) (hzy : s.zeroJoyY < 256) :
    readJoyX s = (s.joyX : Int) - (s.zeroJoyX : Int) ∧
    readJoyY s = (s.joyY : Int) - (s.zeroJoyY : Int) ∧
    (-255 ≤ readJoyX s ∧ readJoyX s ≤ 255) ∧
    (-255 ≤ readJoyY s ∧ readJoyY s ≤ 255) ∧
    (s.joyX < s.zeroJoyX → readJoyX s < 0) ∧
    (s.joyY < s.zeroJoyY → readJoyY s < 0) ∧
    (∀ z : Nat, readJoyX { s with zeroJoyX := z } = (s.joyX : Int) - (z : Int)) ∧
    (∀ z : Nat, readJoyY { s with zeroJoyY := z } = (s.joyY : Int) - (z : Int)) := by
  refine ⟨rfl, rfl, ⟨?_, ?_⟩, ⟨?_, ?_⟩, ?_, ?_, fun _ => rfl, fun _ => rfl⟩ <;>
    simp only [readJoyX, readJoyY] <;> omega

/-- Instance of C14: reading 0 against zero 255 gives -255, reading 255
against zero 0 gives 255. -/
theorem C14_readJoy_is_signed_difference_witness :
    readJoyX { zeroState with joyX := 0, zeroJoyX := 255, joyY := 255, zeroJoyY := 0 } = -255 ∧
    readJoyY { zeroState with joyX := 0, zeroJoyX := 255, joyY := 255, zeroJoyY := 0 } = 255 :=
  ⟨(C14_readJoy_is_signed_difference
      { zeroState with joyX := 0, zeroJoyX := 255, joyY := 255, zeroJoyY := 0 }
      (by decide) (by decide) (by decide) (by decide)).1,
   (C14_readJoy_is_signed_difference
      { zeroState with joyX := 0, zeroJoyX := 255, joyY := 255, zeroJoyY := 0 }
      (by decide) (by decide) (by decide) (by decide)).2.1⟩

/-! ## Who writes the calibration -/

/-- C15: `update` never writes the calibration: whenever it returns, and it
returns for every delivery that fits in what is left of the receive buffer,
`zeroJoyX` and `zeroJoyY` are unchanged. `calibrateJoy` writes nothing but
`zeroJoyX` and `zeroJoyY`: restoring these two members gives back the state
it was called with, so `joyX`, `joyY`, the buttons, the accelerometer
values and the `last*` members are unchanged and `zPressed`, `cPressed`
answer as before. -/
theorem C15_calibration_written_only_by_calibrateJoy (s : WiiChuck) (rx : List Nat) :
    (∀ t, update s rx = some t → t.zeroJoyX = s.zeroJoyX ∧ t.zeroJoyY = s.zeroJoyY) ∧
    (s.cnt + rx.length ≤ 6 →
      ∃ t, update s rx = some t ∧ t.zeroJoyX = s.zeroJoyX ∧ t.zeroJoyY = s.zeroJoyY) ∧
    ({ calibrateJoy s with zeroJoyX := s.zeroJoyX, zeroJoyY := s.zeroJoyY } = s) ∧
    ((calibrateJoy s).joyX = s.joyX ∧ (calibrateJoy s).joyY = s.joyY ∧
      (calibrateJoy s).buttonZ = s.buttonZ ∧ (calibrateJoy s).buttonC = s.buttonC ∧
      (calibrateJoy s).angles = s.angles ∧
      (calibrateJoy s).lastJoyX = s.lastJoyX ∧ (calibrateJoy s).lastJoyY = s.lastJoyY ∧
      (calibrateJoy s).lastZ = s.lastZ ∧ (calibrateJoy s).lastC = s.lastC) ∧
    zPressed (calibrateJoy s) = zPressed s ∧ cPressed (calibrateJoy s) = cPressed s := by
  refine ⟨fun t ht => update_zero s t rx ht, ?_, rfl,
    ⟨rfl, rfl, rfl, rfl, rfl, rfl, rfl, rfl, rfl⟩, rfl, rfl⟩
  intro h
  obtain ⟨t, ht⟩ := update_fits s rx h
  exact ⟨t, ht, update_zero s t rx ht⟩

/-- Instance of C15: a complete frame decoded with the calibration at
(124, 132). -/
theorem C15_calibration_written_only_by_calibrateJoy_witness :
    ∃ t, update { zeroState with zeroJoyX := 124, zeroJoyY := 132 }
        [200, 31, 128, 122, 115, 3] = some t ∧
      t.zeroJoyX = 124 ∧ t.zeroJoyY = 132 :=
  (C15_calibration_written_only_by_calibrateJoy
    { zeroState with zeroJoyX := 124, zeroJoyY := 132 } [200, 31, 128, 122, 115, 3]).2.1
    (by decide)

/-! ## Session start -/

/-- C16: for every prior state and whatever bytes (at most the six
requested) the bus delivers during the handshake, `begin` returns with the
calibration at its defaults, `zeroJoyX = 124` and `zeroJoyY = 132`, and the
three stored accelerometer values zero. -/
theorem C16_begin_resets_calibration_and_angles (s : WiiChuck) (rx : List Nat)
    (h : rx.length ≤ 6) :
    ∃ t, begin s rx = some t ∧
      t.zeroJoyX = DEFAULT_ZERO_JOY_X ∧ t.zeroJoyY = DEFAULT_ZERO_JOY_Y ∧
      t.zeroJoyX = 124 ∧ t.zeroJoyY = 132 ∧
      t.angles.get 0 = 0 ∧ t.angles.get 1 = 0 ∧ t.angles.get 2 = 0 := by
  obtain ⟨t, ht⟩ := update_fits { s with cnt := 0, averageCounter := 0 } rx
    (by simpa using h)
  exact ⟨_, begin_of_update s t rx ht, rfl, rfl, rfl, rfl, rfl, rfl, rfl⟩

/-- Instance of C16: a session started on a used object, the handshake read
delivering a complete frame. -/
theorem C16_begin_resets_calibration_and_angles_witness :
    ∃ t, begin { zeroState with cnt := 4, zeroJoyX := 7, zeroJoyY := 9, angles := ⟨5, 6, 7⟩ }
        [200, 31, 128, 122, 115, 3] = some t ∧
      t.zeroJoyX = DEFAULT_ZERO_JOY_X ∧ t.zeroJoyY = DEFAULT_ZERO_JOY_Y ∧
      t.zeroJoyX = 124 ∧ t.zeroJoyY = 132 ∧
      t.angles.get 0 = 0 ∧ t.angles.get 1 = 0 ∧ t.angles.get 2 = 0 :=
  C16_begin_resets_calibration_and_angles
    { zeroState with cnt := 4, zeroJoyX := 7, zeroJoyY := 9, angles := ⟨5, 6, 7⟩ }
    [200, 31, 128, 122, 115, 3] (by decide)

/-! ## Calibration before the first frame -/

/-- C17, as stated, fails: after `begin` on a zeroed object with a handshake
read that delivers nothing, no frame has been decoded and the calibration
is (124, 132); `calibrateJoy` is not rejected, it overwrites the calibration
with the undecoded `joyX = 0`, `joyY = 0`. -/
theorem C17_calibrateJoy_before_first_frame_overwrites :
    ∃ t, begin zeroState [] = some t ∧ t.zeroJoyX = 124 ∧ t.zeroJoyY = 132 ∧
      (calibrateJoy t).zeroJoyX = 0 ∧ (calibrateJoy t).zeroJoyY = 0 ∧
      (calibrateJoy t).zeroJoyX ≠ t.zeroJoyX ∧ (calibrateJoy t).zeroJoyY ≠ t.zeroJoyY :=
  ⟨_, rfl, rfl, rfl, rfl, rfl, by decide, by decide⟩

/-- C17 (amended): `calibrateJoy` has no guard. After `begin` with a
handshake read of fewer than six bytes no frame has been decoded, `joyX`
and `joyY` still hold what they held before `begin`, and `calibrateJoy`
sets `zeroJoyX` and `zeroJoyY` to these values. -/
theorem C17_calibrateJoy_is_unconditional (s : WiiChuck) (rx : List Nat) (h : rx.length < 6) :
    ∃ t, begin s rx = some t ∧ t.joyX = s.joyX ∧ t.joyY = s.joyY ∧
      (calibrateJoy t).zeroJoyX = s.joyX ∧ (calibrateJoy t).zeroJoyY = s.joyY := by
  obtain ⟨t, ht, hx, hy, -⟩ := update_below_six { s with cnt := 0, averageCounter := 0 } rx
    (by simpa using h)
  exact ⟨_, begin_of_update s t rx ht, hx, hy, hx, hy⟩

/-- Instance of C17 (amended): a handshake read of two bytes on an object
whose `joyX`, `joyY` hold 37 and 91. -/
theorem C17_calibrateJoy_is_unconditional_witness :
    ∃ t, begin { zeroState with joyX := 37, joyY := 91 } [1, 2] = some t ∧
      t.joyX = 37 ∧ t.joyY = 91 ∧
      (calibrateJoy t).zeroJoyX = 37 ∧ (calibrateJoy t).zeroJoyY = 91 :=
  C17_calibrateJoy_is_unconditional { zeroState with joyX := 37, joyY := 91 } [1, 2]
    (by decide)

/-! ## Range of the accelerometer values -/

/-- C18: for every complete frame decoded by `update` (from `cnt = 0`),
each of the three stored accelerometer values is between 0 and 1023, so
`readAccelX`, `readAccelY`, `readAccelZ` lie in `[-510, 513]`,
`[-490, 533]` and `[-460, 563]`. -/
theorem C18_accel_values_are_ten_bit (s : WiiChuck) (h : s.cnt = 0) (f : List Nat)
    (hf : isFrame f) :
    ∃ t, update s f = some t ∧
      (0 ≤ t.angles.get 0 ∧ t.angles.get 0 ≤ 1023) ∧
      (0 ≤ t.angles.get 1 ∧ t.angles.get 1 ≤ 1023) ∧
      (0 ≤ t.angles.get 2 ∧ t.angles.get 2 ≤ 1023) ∧
      (-510 ≤ readAccelX t ∧ readAccelX t ≤ 513) ∧
      (-490 ≤ readAccelY t ∧ readAccelY t ≤ 533) ∧
      (-460 ≤ readAccelZ t ∧ readAccelZ t ≤ 563) := by
  have h2 := accel_value_le (byte f 2) (byte f 5) (byte_lt f hf 2)
  have h3 := accel_value_le (byte f 3) (byte f 5) (byte_lt f hf 3)
  have h4 := accel_value_le (byte f 4) (byte f 5) (byte_lt f hf 4)
  refine ⟨_, update_frame s h f hf, ?_, ?_, ?_, ?_, ?_, ?_⟩ <;>
    simp only [Angles.get, readAccelX, readAccelY, readAccelZ, ZEROX, ZEROY, ZEROZ] <;>
    omega

/-- Instance of C18: the frame with all accelerometer bits set. -/
theorem C18_accel_values_are_ten_bit_witness :
    ∃ t, update zeroState [128, 128, 255, 255, 255, 255] = some t ∧
      (0 ≤ t.angles.get 0 ∧ t.angles.get 0 ≤ 1023) ∧
      (0 ≤ t.angles.get 1 ∧ t.angles.get 1 ≤ 1023) ∧
      (0 ≤ t.angles.get 2 ∧ t.angles.get 2 ≤ 1023) ∧
      (-510 ≤ readAccelX t ∧ readAccelX t ≤ 513) ∧
      (-490 ≤ readAccelY t ∧ readAccelY t ≤ 533) ∧
      (-460 ≤ readAccelZ t ∧ readAccelZ t ≤ 563) :=
  C18_accel_values_are_ten_bit zeroState rfl [128, 128, 255, 255, 255, 255] (by decide)

/-! ## Receive buffer bounds -/

/-- C19 (defect in the code): after `begin` (handshake read empty), an
`update` whose read delivers three bytes leaves `cnt = 3`; in the next
`update` a full read of six bytes stores its first three bytes at
`status[3..5]`, reaching `cnt = 6`, and the store of its fourth byte is
`status[6]`, past the end of the six-element buffer: the call has no
defined result. -/
theorem C19_short_then_full_read_overruns_status :
    ∃ s1 s2 s3, begin zeroState [] = some s1 ∧ s1.cnt = 0 ∧
      update s1 [1, 2, 3] = some s2 ∧ s2.cnt = 3 ∧
      update_receive s2 [4, 5, 6] = some s3 ∧ s3.cnt = 6 ∧ ¬ s3.cnt < 6 ∧
      update_receive s3 [7, 8, 9] = none ∧
      update s2 [4, 5, 6, 7, 8, 9] = none :=
  ⟨_, _, _, rfl, rfl, rfl, rfl, rfl, rfl, by decide, rfl, rfl⟩

/-! ## Repeated frames -/

/-- C20: if two consecutive complete frames are byte-identical (fed by two
`update` calls from `cnt = 0`, no `calibrateJoy` in between), then after
the second call `zPressed` and `cPressed` are false and, for every
threshold `t`, `rightJoy t` and `leftJoy t` are false. -/
theorem C20_repeated_frame_reports_no_edge (s : WiiChuck) (h : s.cnt = 0) (f : List Nat)
    (hf : isFrame f) :
    ∃ u, feed s [f, f] = some u ∧ zPressed u = false ∧ cPressed u = false ∧
      ∀ t : Int, rightJoy u t = false ∧ leftJoy u t = false := by
  obtain ⟨t1, ht1, hc1, hz1, hcd1, -, -, hx1, -, hzx1, -, -, -⟩ := update_frame_members s h f hf
  obtain ⟨u, hu, -, hz, hcd, hlz, hlc, hx, -, hzx, -, hlx, -⟩ :=
    update_frame_members t1 hc1 f hf
  refine ⟨u, by simp only [feed, ht1, hu], ?_, ?_, ?_⟩
  · rw [zPressed, hz, hlz, hz1]; cases zDown f <;> rfl
  · rw [cPressed, hcd, hlc, hcd1]; cases cDown f <;> rfl
  · intro t
    have e1 : readJoyX u = (byte f 0 : Int) - (s.zeroJoyX : Int) := by
      rw [readJoyX, hx, hzx, hzx1]
    have e2 : u.lastJoyX = (byte f 0 : Int) - (s.zeroJoyX : Int) := by
      rw [hlx, readJoyX, hx1, hzx1]
    constructor
    · simp only [rightJoy, e1, e2, Bool.and_eq_false_iff, decide_eq_false_iff_not]
      omega
    · simp only [leftJoy, e1, e2, Bool.and_eq_false_iff, decide_eq_false_iff_not]
      omega

/-- Instance of C20: a frame with Z down and the stick far right, sent
twice. -/
theorem C20_repeated_frame_reports_no_edge_witness :
    ∃ u, feed { zeroState with zeroJoyX := 124 }
        [[250, 128, 128, 122, 115, 2], [250, 128, 128, 122, 115, 2]] = some u ∧
      zPressed u = false ∧ cPressed u = false ∧
      ∀ t : Int, rightJoy u t = false ∧ leftJoy u t = false :=
  C20_repeated_frame_reports_no_edge { zeroState with zeroJoyX := 124 } rfl
    [250, 128, 128, 122, 115, 2] (by decide)

end WiiLib
